import Mathlib

/-
Verification of the fair-division allocation engine
(`app/core/fair_division.py`): a shallow embedding of
`calculate_fair_division` and `solve_fair_division_mixed` together with
theorems settling the specification's claims about them.

Modelling conventions:
* Python floats are embedded as rationals (`ℚ`); Python ints as `ℤ`/`ℕ`.
* `int(val)` (truncation toward zero) is `pyint`.
* Python list indexing `xs[i]`, which raises `IndexError` out of range, is
  `List.get?`; any raised exception inside `solve_fair_division_mixed` is
  caught by its blanket handler and becomes the `(None, None)` result, so
  the whole body is embedded in the `Option` monad.
* The external CP-SAT solver is an oracle: `solve_fair_division_mixed`
  takes an extra argument `sol : Option Assign`, the variable assignment
  the solver returned (`none` = infeasible or timed out).  The constraints
  the code posts on the model are the predicate `Feasible`; a solver run
  that ends with status OPTIMAL satisfies `Optimal`.
-/

namespace FairDivision

/-- Python `int(val)` on a rational: truncation toward zero. -/
def pyint (q : ℚ) : ℤ := q.num.tdiv (q.den : ℤ)

/-- Lines 124-125: `[[int(val) for val in row] for row in matrix]`. -/
def truncMat (M : List (List ℚ)) : List (List ℤ) :=
  M.map (fun r => r.map pyint)

/-- Replacing every valuation by (the rational image of) its integer part;
used to state that the solver pipeline depends only on integer parts. -/
def truncMatQ (M : List (List ℚ)) : List (List ℚ) :=
  M.map (fun r => r.map (fun q => ((pyint q : ℤ) : ℚ)))

/-- Python list indexing `xs[i]`; `none` models the `IndexError`. -/
def pyIndex {α : Type} (xs : List α) (i : Nat) : Option α := xs.get? i

/-- Python `max(xs)`; `none` models the `ValueError` on an empty argument. -/
def pyMax (xs : List ℤ) : Option ℤ :=
  match xs with
  | [] => none
  | a :: as => some (as.foldl max a)

/-- Python `min(xs)` on a nonempty list (the default is never used by the
code, which only calls it with at least one person). -/
def listMin {α : Type} [LinearOrder α] (d : α) : List α → α
  | [] => d
  | a :: as => as.foldl min a

/-- Matrix entry access used in constraint expressions, where the
surrounding `buildModel` has already checked the index is in range. -/
def mget (M : List (List ℤ)) (i j : Nat) : ℤ := (M.getD i []).getD j 0

/-- The data determining the CP model the code builds: dimensions, the
truncated valuation matrices, and the variable bounds the code computes
(lines 127-130, 170-176, 181-185, 195-196). -/
structure ModelData where
  people : Nat
  nIndiv : Nat
  nDiv : Nat
  scale : Nat
  I : List (List ℤ)
  D : List (List ℤ)
  maxPossible : ℤ
  totBounds : List ℤ
  sdBound : ℤ
deriving DecidableEq

/-- The deterministic model-building phase of `solve_fair_division_mixed`
after the truncation of lines 124-125: dimensions (lines 127-130),
`max_possible` (lines 171-175), the `scaled_div` bound
`max(max(row) for row in divisible_matrix)` (lines 183, 195), the per-person
`tot` bounds (lines 181-185), and the matrix accesses made while posting the
per-person satisfaction constraints (lines 188-197).  A `none` is an
exception (IndexError from ragged or missing rows, ValueError from `max`
of an empty sequence) that the blanket handler of lines 270-272 turns into
the `(None, None)` result.  The `max_possible` row totals of lines
171-175, which index both matrices for every person `i`: -/
def bmRowTotals (I D : List (List ℤ)) (p : Nat) : Option (List ℤ) :=
  (List.range p).mapM (fun i => do
    let ri ← pyIndex I i
    if D.isEmpty then
      pure ri.sum
    else do
      let di ← pyIndex D i
      pure (ri.sum + di.sum))

/-- The `scaled_div` bound `max(max(row) for row in divisible_matrix)` of
lines 183 and 195, guarded by the truthiness of `divisible_matrix`;
Python's `max` on an empty sequence raises. -/
def bmMaxMax (D : List (List ℤ)) : Option ℤ :=
  if D.isEmpty then pure 0
  else do
    let rowMaxes ← D.mapM pyMax
    pyMax rowMaxes

/-- The per-person `tot` bounds of lines 181-185 together with the matrix
accesses made while posting constraints (lines 188-197). -/
def bmTotBounds (I D : List (List ℤ)) (p n m : Nat) (mm : ℤ) : Option (List ℤ) :=
  (List.range p).mapM (fun i => do
    let ri ← pyIndex I i
    let _ ← (List.range n).mapM (fun j => pyIndex ri j)
    let rd ← if m = 0 then pure ([] : List ℤ) else pyIndex D i
    let _ ← (List.range m).mapM (fun j => pyIndex rd j)
    pure (ri.sum + mm))

def buildModelCore (I D : List (List ℤ)) (scale : Nat) : Option ModelData := do
  let p := if I.isEmpty then D.length else I.length
  let n := if I.isEmpty then 0 else (I.headD []).length
  let m := if D.isEmpty then 0 else (D.headD []).length
  let rowTotals ← bmRowTotals I D p
  let maxPossible ← pyMax rowTotals
  let mm ← bmMaxMax D
  let totBounds ← bmTotBounds I D p n m mm
  pure ⟨p, n, m, scale, I, D, maxPossible, totBounds, mm⟩

/-- Model building as run by `solve_fair_division_mixed`: the emptiness
check of lines 119-121 (both matrices empty returns `(None, None)`)
followed by the truncation of lines 124-125 and the deterministic build. -/
def buildModel (Iq Dq : List (List ℚ)) (scale : Nat) : Option ModelData :=
  if Iq.isEmpty ∧ Dq.isEmpty then none
  else buildModelCore (truncMat Iq) (truncMat Dq) scale

/-- A solver assignment: values of the boolean variables
`indivisible_{i}_{j}` and the integer variables `divisible_{i}_{j}`. -/
structure Assign where
  y : Nat → Nat → Nat
  x : Nat → Nat → Nat

/-- `indiv_sum` of lines 188-189: the person's valuation-weighted sum of
indivisible indicators. -/
def indivSum (md : ModelData) (a : Assign) (i : Nat) : ℤ :=
  ∑ j ∈ Finset.range md.nIndiv, mget md.I i j * (a.y i j : ℤ)

/-- `div_contrib` of lines 193-194. -/
def divContrib (md : ModelData) (a : Assign) (i : Nat) : ℤ :=
  ∑ j ∈ Finset.range md.nDiv, mget md.D i j * (a.x i j : ℤ)

/-- `scaled_div` of lines 192-199: `AddDivisionEquality` constrains it to
the integer quotient (CP-SAT division truncates toward zero); with no
divisible items the code uses the literal 0. -/
def scaledDiv (md : ModelData) (a : Assign) (i : Nat) : ℤ :=
  if md.nDiv = 0 then 0 else (divContrib md a i).tdiv (md.scale : ℤ)

/-- The `tot` expression of line 202: `tot == indiv_sum + scaled_div`. -/
def tot (md : ModelData) (a : Assign) (i : Nat) : ℤ :=
  indivSum md a i + scaledDiv md a i

/-- All constraints the code posts on the model, as a predicate on solver
assignments: variable domains (lines 149-157), exactly-one-owner
(lines 161-162), full allocation (lines 166-167), the `scaled_div`
variable's domain `[0, max(max(row))]` (lines 195-196), and the `tot`
variable's domain `[0, sum(I[i]) + max(max(row))]` (lines 181-185)
together with `tot == indiv_sum + scaled_div` (line 202).  Any variable
values a solver can return satisfy this predicate. -/
def Feasible (md : ModelData) (a : Assign) : Prop :=
  (∀ i < md.people, ∀ j < md.nIndiv, a.y i j ≤ 1) ∧
  (∀ i < md.people, ∀ j < md.nDiv, a.x i j ≤ md.scale) ∧
  (∀ j < md.nIndiv, (∑ i ∈ Finset.range md.people, (a.y i j : ℤ)) = 1) ∧
  (∀ j < md.nDiv, (∑ i ∈ Finset.range md.people, (a.x i j : ℤ)) = (md.scale : ℤ)) ∧
  (∀ i < md.people, md.nDiv ≠ 0 → 0 ≤ scaledDiv md a i ∧ scaledDiv md a i ≤ md.sdBound) ∧
  (∀ i < md.people, 0 ≤ tot md a i ∧ tot md a i ≤ md.totBounds.getD i 0)

/-- The best value of the `worst_satisfaction` variable achievable for a
fixed assignment of the `y`/`x` variables: `worst` ranges over
`[0, max_possible]` (line 175) subject to `tot_i >= worst` for every
person (line 203), and the objective maximizes it (line 207). -/
def objVal (md : ModelData) (a : Assign) : ℤ :=
  min md.maxPossible (listMin 0 ((List.range md.people).map (tot md a)))

/-- An assignment the solver can return with status OPTIMAL: feasible, and
no feasible assignment admits a larger value of the objective. -/
def Optimal (md : ModelData) (a : Assign) : Prop :=
  Feasible md a ∧ ∀ b, Feasible md b → objVal md b ≤ objVal md a

/-- Feasibility of an allocation in the sense of the specification's
max-min-optimality property (claim C1): boolean indicators, shares within
`[0, scale]`, the exclusivity constraint on indivisible items and the
full-allocation constraint on divisible items — without the extra `tot`
and `scaled_div` bounds the code adds to the model. -/
def AllocFeasible (md : ModelData) (a : Assign) : Prop :=
  (∀ i < md.people, ∀ j < md.nIndiv, a.y i j ≤ 1) ∧
  (∀ i < md.people, ∀ j < md.nDiv, a.x i j ≤ md.scale) ∧
  (∀ j < md.nIndiv, (∑ i ∈ Finset.range md.people, (a.y i j : ℤ)) = 1) ∧
  (∀ j < md.nDiv, (∑ i ∈ Finset.range md.people, (a.x i j : ℤ)) = (md.scale : ℤ))

/-- The fraction `solver.Value(divisible_vars[i, j]) / scale`
(lines 236-239, 256). -/
def fraction (md : ModelData) (a : Assign) (i j : Nat) : ℚ :=
  (a.x i j : ℚ) / (md.scale : ℚ)

/-- The recomputed actual satisfaction of person `i` (lines 245-258): the
valuations (already truncated to integers) of indivisible items whose
indicator is 1, plus valuation times fraction for each divisible item. -/
def actualSat (md : ModelData) (a : Assign) (i : Nat) : ℚ :=
  (∑ j ∈ Finset.range md.nIndiv, if a.y i j = 1 then (mget md.I i j : ℚ) else 0) +
  ∑ j ∈ Finset.range md.nDiv, (mget md.D i j : ℚ) * fraction md a i j

/-- The list `actual_satisfactions` (line 259). -/
def actualSats (md : ModelData) (a : Assign) : List ℚ :=
  (List.range md.people).map (actualSat md a)

/-- Line 262: `worst_satisfaction = min(actual_satisfactions)`. -/
def returnedWorst (md : ModelData) (a : Assign) : ℚ :=
  listMin 0 (actualSats md a)

/-- One person's entry in the returned allocation dictionary: the
`indivisible` key is present iff there are indivisible items (lines
226-231), the `divisible` key iff there are divisible items (lines
235-241). -/
structure PersonAlloc where
  indiv : Option (List Nat)
  div : Option (List ℚ)
deriving DecidableEq

/-- The allocation dictionary built in lines 219-243, keyed 0..people-1. -/
def extractAlloc (md : ModelData) (a : Assign) : List PersonAlloc :=
  (List.range md.people).map (fun i =>
    { indiv := if 0 < md.nIndiv then some ((List.range md.nIndiv).map (fun j => a.y i j)) else none
      div := if 0 < md.nDiv then some ((List.range md.nDiv).map (fun j => fraction md a i j)) else none })

/-- `solve_fair_division_mixed` (lines 102-272).  The result is `none`
exactly when the Python function returns `(None, None)`: empty input,
an internal exception (both inside `buildModel`), or the solver reporting
no solution (`sol = none`); otherwise the allocation and the recomputed
worst satisfaction of lines 217-265. -/
def solve_fair_division_mixed (Iq Dq : List (List ℚ)) (scale : Nat)
    (sol : Option Assign) : Option (List PersonAlloc × ℚ) :=
  match buildModel Iq Dq scale with
  | none => none
  | some md =>
    match sol with
    | none => none
    | some a => some (extractAlloc md a, returnedWorst md a)

/-- An item as passed to `calculate_fair_division`: a name and the
`is_divisible` flag. -/
structure Item where
  name : String
  is_divisible : Bool
deriving DecidableEq

/-- The failures `calculate_fair_division` can raise: the `ValueError` of
line 42 (an agent's valuations do not sum to 100) and the `ValueError`
"No solution found" of line 66. -/
inductive FDErr where
  | normalization (person : String) (total : ℚ)
  | noSolution
deriving DecidableEq

/-- One agent's entry in the result: the `indivisible` dictionary (item
name mapped to 1, lines 85-88) and the `divisible` dictionary (item name
mapped to a positive fraction, lines 91-94), both as association lists in
insertion order. -/
structure AgentAlloc where
  indiv : List (String × Nat)
  div : List (String × ℚ)
deriving DecidableEq

/-- The success result of `calculate_fair_division` (lines 69-95). -/
structure FDResult where
  allocations : List (String × AgentAlloc)
  worst : ℚ
deriving DecidableEq

/-- `sum(valuations[item['name']][person] for item in items)` (line 40). -/
def totalFor (items : List Item) (vals : String → String → ℚ) (per : String) : ℚ :=
  (items.map (fun it => vals it.name per)).sum

/-- The validation loop of lines 39-42: raise on the first person whose
valuations total differs from 100 by more than 0.01. -/
def checkTotals (items : List Item) (vals : String → String → ℚ) :
    List String → Except FDErr Unit
  | [] => Except.ok ()
  | per :: rest =>
    if |totalFor items vals per - 100| > 1 / 100 then
      Except.error (FDErr.normalization per (totalFor items vals per))
    else checkTotals items vals rest

/-- Matrix building of lines 51-61: one row per person, but only when the
item list is nonempty (otherwise the matrix stays empty). -/
def buildMatrix (its : List Item) (vals : String → String → ℚ)
    (people : List String) : List (List ℚ) :=
  if its.isEmpty then [] else people.map (fun per => its.map (fun it => vals it.name per))

/-- Python `enumerate` starting at `k`. -/
def pyEnum {α : Type} (k : Nat) : List α → List (Nat × α)
  | [] => []
  | a :: as => (k, a) :: pyEnum (k + 1) as

/-- Lines 77-94: convert one person's raw allocation into named form,
keeping indivisible entries whose value is 1 and divisible entries whose
fraction is strictly positive. -/
def calcAgentAlloc (indivNames divNames : List String) (pa : PersonAlloc) : AgentAlloc where
  indiv :=
    match pa.indiv with
    | none => []
    | some ys => (pyEnum 0 ys).filterMap (fun pr =>
        if pr.2 = 1 then some (indivNames.getD pr.1 "", 1) else none)
  div :=
    match pa.div with
    | none => []
    | some fs => (pyEnum 0 fs).filterMap (fun pr =>
        if 0 < pr.2 then some (divNames.getD pr.1 "", pr.2) else none)

/-- The loop `for i, person in enumerate(people)` of lines 72-94, with the
index threaded explicitly. -/
def buildAllocs (indivNames divNames : List String) (alloc : List PersonAlloc) :
    Nat → List String → List (String × AgentAlloc)
  | _, [] => []
  | i, per :: rest =>
    (per, calcAgentAlloc indivNames divNames (alloc.getD i ⟨none, none⟩)) ::
      buildAllocs indivNames divNames alloc (i + 1) rest

/-- `calculate_fair_division` (lines 25-99): validate per-person totals,
split items by divisibility, build the valuation matrices, call
`solve_fair_division_mixed` (scale 100), raise "No solution found" when it
returns `(None, None)`, otherwise shape the result.  The outer handler of
lines 97-99 logs and re-raises, so errors propagate unchanged. -/
def calculate_fair_division (items : List Item) (people : List String)
    (vals : String → String → ℚ) (sol : Option Assign) : Except FDErr FDResult :=
  match checkTotals items vals people with
  | Except.error e => Except.error e
  | Except.ok _ =>
    match solve_fair_division_mixed
        (buildMatrix (items.filter (fun it => !it.is_divisible)) vals people)
        (buildMatrix (items.filter (fun it => it.is_divisible)) vals people) 100 sol with
    | none => Except.error FDErr.noSolution
    | some (alloc, worst) =>
      Except.ok
        ⟨buildAllocs ((items.filter (fun it => !it.is_divisible)).map (fun it => it.name))
            ((items.filter (fun it => it.is_divisible)).map (fun it => it.name))
            alloc 0 people,
          worst⟩

/-- Following the specification's error taxonomy (section 7): input-shape
and normalization failures are input errors, detected before model
construction; the "No solution found" error is the surface of solver
infeasibility or timeout, not an input error. -/
def IsInputError : FDErr → Prop
  | FDErr.normalization _ _ => True
  | FDErr.noSolution => False

/-- Untruncated matrix entry, for stating how reported satisfactions
relate to the original real-valued valuations (claim C10). -/
def mgetQ (M : List (List ℚ)) (i j : Nat) : ℚ := (M.getD i []).getD j 0

/-- Satisfaction of person `i` computed over the original (untruncated)
valuations, with the same assignment and the same formula as the code's
recomputation; stated from the claim's words for comparison with
`actualSat`. -/
def actualSatOrig (Iq Dq : List (List ℚ)) (nIndiv nDiv scale : Nat)
    (a : Assign) (i : Nat) : ℚ :=
  (∑ j ∈ Finset.range nIndiv, if a.y i j = 1 then mgetQ Iq i j else 0) +
  ∑ j ∈ Finset.range nDiv, mgetQ Dq i j * ((a.x i j : ℚ) / (scale : ℚ))

/-! ### Concrete instances used by the claims -/

/-- Indivisible valuations of the C1 failing input: one indivisible item
both people value at 20. -/
def Iq1 : List (List ℚ) := [[20], [20]]

/-- Divisible valuations of the C1 failing input: two divisible items both
people value at 40 each (each person's valuations total 100). -/
def Dq1 : List (List ℚ) := [[40, 40], [40, 40]]

/-- The model the code builds from `Iq1`/`Dq1` (checked against
`buildModel` below): note `sdBound = 40` and `totBounds = [60, 60]`, the
max single divisible valuation, not the 80 a person can actually receive
from divisible items. -/
def md1 : ModelData := ⟨2, 1, 2, 100, [[20], [20]], [[40, 40], [40, 40]], 100, [60, 60], 40⟩

/-- An allocation of the C1 instance satisfying exclusivity and full
allocation with both satisfactions equal to 50: person 0 takes the
indivisible item and shares 38 and 37, person 1 shares 62 and 63. -/
def b1 : Assign :=
  ⟨fun i _ => if i = 0 then 1 else 0,
   fun i j => if i = 0 then (if j = 0 then 38 else 37) else (if j = 0 then 62 else 63)⟩

/-- A model-feasible assignment of the C1 instance (a half/half split). -/
def aF1 : Assign := ⟨fun i _ => if i = 0 then 1 else 0, fun _ _ => 50⟩

/-- A small mixed instance for witnesses: one indivisible and one
divisible item, both valued 50 by both people. -/
def Iq2 : List (List ℚ) := [[50], [50]]

/-- Divisible half of the witness instance. -/
def Dq2 : List (List ℚ) := [[50], [50]]

/-- The model built from `Iq2`/`Dq2`. -/
def md2 : ModelData := ⟨2, 1, 1, 100, [[50], [50]], [[50], [50]], 100, [100, 100], 50⟩

/-- A feasible assignment of the witness instance: person 0 takes the
indivisible item, the divisible item is split evenly. -/
def a2 : Assign := ⟨fun i _ => if i = 0 then 1 else 0, fun _ _ => 50⟩

/-! ### Minimum-of-a-list lemmas -/

theorem foldl_min_le_init {α : Type} [LinearOrder α] (l : List α) (a : α) :
    l.foldl min a ≤ a := by
  induction l generalizing a with
  | nil => exact le_refl a
  | cons b t ih => exact le_trans (ih (min a b)) (min_le_left a b)

theorem foldl_min_le_mem {α : Type} [LinearOrder α] {l : List α} {x : α} (a : α)
    (h : x ∈ l) : l.foldl min a ≤ x := by
  induction l generalizing a with
  | nil => cases h
  | cons b t ih =>
    rcases List.mem_cons.mp h with rfl | hx
    · exact le_trans (foldl_min_le_init t (min a x)) (min_le_right a x)
    · exact ih (min a b) hx

theorem foldl_min_mem {α : Type} [LinearOrder α] (l : List α) (a : α) :
    l.foldl min a = a ∨ l.foldl min a ∈ l := by
  induction l generalizing a with
  | nil => exact Or.inl rfl
  | cons b t ih =>
    rcases ih (min a b) with h | h
    · rcases min_choice a b with hm | hm
      · exact Or.inl (by rw [List.foldl_cons, h, hm])
      · exact Or.inr (by rw [List.foldl_cons, h, hm]; exact List.mem_cons_self b t)
    · exact Or.inr (List.mem_cons_of_mem b h)

theorem listMin_le {α : Type} [LinearOrder α] (d : α) (l : List α) (x : α)
    (h : x ∈ l) : listMin d l ≤ x := by
  cases l with
  | nil => cases h
  | cons a t =>
    rcases List.mem_cons.mp h with rfl | hx
    · exact foldl_min_le_init t x
    · exact foldl_min_le_mem a hx

theorem listMin_pair {α : Type} [LinearOrder α] (d a b : α) :
    listMin d [a, b] = min a b := rfl

theorem listMin_single {α : Type} [LinearOrder α] (d a : α) :
    listMin d [a] = a := rfl

theorem listMin_mem {α : Type} [LinearOrder α] (d : α) (l : List α) (h : l ≠ []) :
    listMin d l ∈ l := by
  cases l with
  | nil => exact absurd rfl h
  | cons a t =>
    rcases foldl_min_mem t a with h1 | h1
    · rw [listMin, h1]; exact List.mem_cons_self a t
    · exact List.mem_cons_of_mem a h1

/-- The `scale` recorded in a successfully built model is the `scale`
argument of the call (core phase). -/
theorem buildModelCore_scale {I D : List (List ℤ)} {s : Nat} {md : ModelData}
    (h : buildModelCore I D s = some md) : md.scale = s := by
  unfold buildModelCore at h
  simp only [bind, Option.bind_eq_some, Option.some.injEq] at h
  obtain ⟨rt, hrt, h⟩ := h
  obtain ⟨mp, hmp, h⟩ := h
  obtain ⟨mm, hmm2, h⟩ := h
  obtain ⟨tb, htb, hmd⟩ := h
  simp only [Option.pure_def, Option.some.injEq] at hmd
  rw [← hmd]

/-- The `scale` recorded in a successfully built model is the `scale`
argument of the call. -/
theorem buildModel_scale {Iq Dq : List (List ℚ)} {s : Nat} {md : ModelData}
    (h : buildModel Iq Dq s = some md) : md.scale = s := by
  unfold buildModel at h
  by_cases hc : (Iq.isEmpty ∧ Dq.isEmpty)
  · rw [if_pos hc] at h; cases h
  · rw [if_neg hc] at h; exact buildModelCore_scale h

instance decFeasible (md : ModelData) (a : Assign) : Decidable (Feasible md a) := by
  unfold Feasible
  infer_instance

instance decAllocFeasible (md : ModelData) (a : Assign) : Decidable (AllocFeasible md a) := by
  unfold AllocFeasible
  infer_instance

/-! ### Claim theorems -/

/-- C2: on every input on which `solve_fair_division_mixed` returns an
allocation — the model was built and the solver returned an assignment,
which necessarily satisfies the posted constraints — for every divisible
item the extracted fractional shares across all agents sum to exactly 1,
hence lie within the claimed `1/scale` tolerance of 1, and each fraction
lies in [0, 1]. -/
theorem c2_divisible_shares_complete (Iq Dq : List (List ℚ)) (scale : Nat)
    (md : ModelData) (a : Assign) (hb : buildModel Iq Dq scale = some md)
    (hf : Feasible md a) (hs : 0 < scale) (j : Nat) (hj : j < md.nDiv) :
    solve_fair_division_mixed Iq Dq scale (some a)
        = some (extractAlloc md a, returnedWorst md a) ∧
    (∑ i ∈ Finset.range md.people, fraction md a i j) = 1 ∧
    |(∑ i ∈ Finset.range md.people, fraction md a i j) - 1| ≤ 1 / (scale : ℚ) ∧
    ∀ i < md.people, 0 ≤ fraction md a i j ∧ fraction md a i j ≤ 1 := by
  obtain ⟨hy, hx, hexcl, hfull, hsd, htot⟩ := hf
  have hms : md.scale = scale := buildModel_scale hb
  have hsq : (0 : ℚ) < (scale : ℚ) := by exact_mod_cast hs
  have hsolve : solve_fair_division_mixed Iq Dq scale (some a)
      = some (extractAlloc md a, returnedWorst md a) := by
    unfold solve_fair_division_mixed
    rw [hb]
  have hsum : (∑ i ∈ Finset.range md.people, fraction md a i j) = 1 := by
    unfold fraction
    rw [← Finset.sum_div]
    have hcast : (∑ i ∈ Finset.range md.people, (a.x i j : ℚ)) = (md.scale : ℚ) := by
      have h1 := hfull j hj
      exact_mod_cast congrArg (fun z : ℤ => (z : ℚ)) h1
    rw [hcast, hms]
    exact div_self (ne_of_gt hsq)
  refine ⟨hsolve, hsum, ?_, ?_⟩
  · rw [hsum]
    simp only [sub_self, abs_zero]
    positivity
  · intro i hi
    constructor
    · unfold fraction
      positivity
    · have hxn : a.x i j ≤ scale := hms ▸ hx i hi j hj
      have hxle : (a.x i j : ℚ) ≤ (scale : ℚ) := by exact_mod_cast hxn
      unfold fraction
      rw [hms, div_le_one hsq]
      exact hxle

/-- Witness for C2 at the concrete mixed instance `Iq2`/`Dq2` with the
feasible assignment `a2`. -/
theorem c2_witness :
    solve_fair_division_mixed Iq2 Dq2 100 (some a2)
        = some (extractAlloc md2 a2, returnedWorst md2 a2) ∧
    (∑ i ∈ Finset.range md2.people, fraction md2 a2 i 0) = 1 ∧
    |(∑ i ∈ Finset.range md2.people, fraction md2 a2 i 0) - 1| ≤ 1 / ((100 : Nat) : ℚ) ∧
    ∀ i < md2.people, 0 ≤ fraction md2 a2 i 0 ∧ fraction md2 a2 i 0 ≤ 1 :=
  c2_divisible_shares_complete Iq2 Dq2 100 md2 a2 (by decide) (by decide)
    (by decide) 0 (by decide)

/-- C3: on every input on which the solver returns an assignment, every
indivisible item has exactly one agent with indicator 1 and all other
agents with indicator 0. -/
theorem c3_indivisible_exclusive (Iq Dq : List (List ℚ)) (scale : Nat)
    (md : ModelData) (a : Assign) (_hb : buildModel Iq Dq scale = some md)
    (hf : Feasible md a) (j : Nat) (hj : j < md.nIndiv) :
    ∃ i < md.people, a.y i j = 1 ∧ ∀ k < md.people, k ≠ i → a.y k j = 0 := by
  obtain ⟨hy, hx, hexcl, hfull, hsd, htot⟩ := hf
  have h1 : (∑ i ∈ Finset.range md.people, a.y i j) = 1 := by
    have := hexcl j hj
    exact_mod_cast this
  have hne : (∑ i ∈ Finset.range md.people, a.y i j) ≠ 0 := by
    rw [h1]; exact one_ne_zero
  obtain ⟨i, hi, hyi⟩ := Finset.exists_ne_zero_of_sum_ne_zero hne
  have hilt : i < md.people := Finset.mem_range.mp hi
  have hyi1 : a.y i j = 1 :=
    le_antisymm (hy i hilt j hj) (Nat.one_le_iff_ne_zero.mpr hyi)
  refine ⟨i, hilt, hyi1, ?_⟩
  intro k hk hki
  have hsplit : a.y i j + ∑ x ∈ (Finset.range md.people).erase i, a.y x j
      = ∑ x ∈ Finset.range md.people, a.y x j :=
    Finset.add_sum_erase (Finset.range md.people) (fun x => a.y x j) hi
  have herase : (∑ x ∈ (Finset.range md.people).erase i, a.y x j) = 0 := by
    omega
  have hkmem : k ∈ (Finset.range md.people).erase i :=
    Finset.mem_erase.mpr ⟨hki, Finset.mem_range.mpr hk⟩
  exact (Finset.sum_eq_zero_iff.mp herase) k hkmem

/-- Witness for C3 at the concrete instance `Iq2`/`Dq2`. -/
theorem c3_witness :
    ∃ i < md2.people, a2.y i 0 = 1 ∧ ∀ k < md2.people, k ≠ i → a2.y k 0 = 0 :=
  c3_indivisible_exclusive Iq2 Dq2 100 md2 a2 (by decide) (by decide) 0 (by decide)

/-- The instance showing the recomputed worst differs from the model's
`worst` variable: two people, one indivisible item both value 0, one
divisible item both value 1. -/
def md4 : ModelData := ⟨2, 1, 1, 100, [[0], [0]], [[1], [1]], 1, [1, 1], 1⟩

/-- An optimal assignment for `md4`: person 0 takes the worthless
indivisible item, the divisible item is split evenly. -/
def a4 : Assign := ⟨fun i _ => if i = 0 then 1 else 0, fun _ _ => 50⟩

/-- C4: the worst satisfaction `solve_fair_division_mixed` returns is the
minimum over all agents of the satisfaction recomputed from the extracted
assignment (first conjunct), and it is not the value of the model's
internal `worst` variable: at the instance `md4` with the optimal
assignment `a4`, the recomputed worst is 1/2 while the `worst` variable's
(optimal) value is 0 (second conjunct). -/
theorem c4_worst_recomputed :
    (∀ (md : ModelData) (a : Assign), Feasible md a → 0 < md.people →
      (∀ i < md.people, returnedWorst md a ≤ actualSat md a i) ∧
      (∃ i < md.people, returnedWorst md a = actualSat md a i)) ∧
    (Optimal md4 a4 ∧ returnedWorst md4 a4 = 1 / 2 ∧ objVal md4 a4 = 0 ∧
      returnedWorst md4 a4 ≠ ((objVal md4 a4 : ℤ) : ℚ)) := by
  constructor
  · intro md a _hf hp
    constructor
    · intro i hi
      exact listMin_le 0 (actualSats md a) (actualSat md a i)
        (List.mem_map_of_mem _ (List.mem_range.mpr hi))
    · have hne : actualSats md a ≠ [] := by
        unfold actualSats
        rw [Ne, List.map_eq_nil_iff, List.range_eq_nil]
        omega
      have hmem := listMin_mem 0 (actualSats md a) hne
      obtain ⟨i, hi, he⟩ := List.mem_map.mp hmem
      exact ⟨i, List.mem_range.mp hi, he.symm⟩
  · have hobj4 : objVal md4 a4 = 0 := by decide
    have hworst : returnedWorst md4 a4 = 1 / 2 := by
      have h1 : actualSats md4 a4 = [actualSat md4 a4 0, actualSat md4 a4 1] := rfl
      have h2 : actualSat md4 a4 0 = 1 / 2 := by
        norm_num [actualSat, fraction, mget, md4, a4, Finset.sum_range_succ]
      have h3 : actualSat md4 a4 1 = 1 / 2 := by
        norm_num [actualSat, fraction, mget, md4, a4, Finset.sum_range_succ]
      rw [returnedWorst, h1, h2, h3, listMin_pair, min_self]
    have hopt : Optimal md4 a4 := by
      refine ⟨by decide, ?_⟩
      intro b hfb
      obtain ⟨hy, hx, hexcl, hfull, hsd, htot⟩ := hfb
      have hsum : (b.x 0 0 : ℤ) + (b.x 1 0 : ℤ) = 100 := by
        have := hfull 0 (by decide)
        simpa [md4, Finset.sum_range_succ] using this
      have hdc0 : divContrib md4 b 0 = (b.x 0 0 : ℤ) := by
        simp [divContrib, mget, md4, Finset.sum_range_succ]
      have hdc1 : divContrib md4 b 1 = (b.x 1 0 : ℤ) := by
        simp [divContrib, mget, md4, Finset.sum_range_succ]
      have ht0 : tot md4 b 0 = (b.x 0 0 : ℤ) / 100 := by
        have hsh : tot md4 b 0 = (divContrib md4 b 0).tdiv 100 := by
          simp [tot, indivSum, scaledDiv, mget, md4, Finset.sum_range_succ]
        rw [hsh, hdc0, Int.tdiv_eq_ediv (Int.natCast_nonneg _) (by norm_num)]
      have ht1 : tot md4 b 1 = (b.x 1 0 : ℤ) / 100 := by
        have hsh : tot md4 b 1 = (divContrib md4 b 1).tdiv 100 := by
          simp [tot, indivSum, scaledDiv, mget, md4, Finset.sum_range_succ]
        rw [hsh, hdc1, Int.tdiv_eq_ediv (Int.natCast_nonneg _) (by norm_num)]
      have hov : objVal md4 b = min 1 (min (tot md4 b 0) (tot md4 b 1)) := rfl
      rw [hobj4, hov, ht0, ht1]
      have hx0 : (0 : ℤ) ≤ (b.x 0 0 : ℤ) := Int.natCast_nonneg _
      have hx1 : (0 : ℤ) ≤ (b.x 1 0 : ℤ) := Int.natCast_nonneg _
      omega
    refine ⟨hopt, hworst, hobj4, ?_⟩
    rw [hworst, hobj4]
    norm_num

/-- Witness for C4's universally quantified part at the instance
`md2`/`a2`. -/
theorem c4_witness :
    (∀ i < md2.people, returnedWorst md2 a2 ≤ actualSat md2 a2 i) ∧
    (∃ i < md2.people, returnedWorst md2 a2 = actualSat md2 a2 i) :=
  c4_worst_recomputed.1 md2 a2 (by decide) (by decide)

/-- C1 (code bug): at the input `Iq1`/`Dq1` — valid, with each person's
valuations summing to 100 — the allocation `b1` satisfies the exclusivity
and full-allocation constraints and gives every agent satisfaction 50,
while every assignment satisfying the constraints the code actually posts
(in particular every assignment a solver can return) has recomputed
minimum satisfaction at most 4099/100 < 50: the extra `scaled_div` bound
(the largest single divisible valuation, 40) cuts off the true max-min
optimum, so the returned allocation is never max-min optimal here. -/
theorem c1_maxmin_optimality_violated (a : Assign) (hf : Feasible md1 a) :
    buildModel Iq1 Dq1 100 = some md1 ∧
    (AllocFeasible md1 b1 ∧ returnedWorst md1 b1 = 50) ∧
    returnedWorst md1 a ≤ 4099 / 100 ∧ (4099 : ℚ) / 100 < 50 := by
  obtain ⟨hy, hx, hexcl, hfull, hsd, htot⟩ := hf
  have hb1 : AllocFeasible md1 b1 := by decide
  have hw1 : returnedWorst md1 b1 = 50 := by
    have h1 : actualSats md1 b1 = [actualSat md1 b1 0, actualSat md1 b1 1] := rfl
    have h2 : actualSat md1 b1 0 = 50 := by
      norm_num [actualSat, fraction, mget, md1, b1, Finset.sum_range_succ]
    have h3 : actualSat md1 b1 1 = 50 := by
      norm_num [actualSat, fraction, mget, md1, b1, Finset.sum_range_succ]
    rw [returnedWorst, h1, h2, h3, listMin_pair, min_self]
  have hy01 : (a.y 0 0 : ℤ) + (a.y 1 0 : ℤ) = 1 := by
    have := hexcl 0 (by decide)
    simpa [md1, Finset.sum_range_succ] using this
  -- the person i with y i 0 = 0 has satisfaction divContrib i / 100 ≤ 4099/100
  have key0 : a.y 0 0 = 0 → returnedWorst md1 a ≤ 4099 / 100 := by
    intro hy0
    have hdc : divContrib md1 a 0 = 40 * (a.x 0 0 : ℤ) + 40 * (a.x 0 1 : ℤ) := by
      simp [divContrib, mget, md1, Finset.sum_range_succ]
    have hnn : 0 ≤ divContrib md1 a 0 := by
      rw [hdc]
      positivity
    have hsdle : (divContrib md1 a 0).tdiv 100 ≤ 40 := by
      have h := (hsd 0 (by decide) (by decide)).2
      have hsh : scaledDiv md1 a 0 = (divContrib md1 a 0).tdiv 100 := by
        simp [scaledDiv, md1]
      rw [hsh] at h
      simpa [md1] using h
    have hdle : divContrib md1 a 0 ≤ 4099 := by
      rw [Int.tdiv_eq_ediv hnn (by norm_num)] at hsdle
      omega
    have hs : actualSat md1 a 0 = ((divContrib md1 a 0 : ℤ) : ℚ) / 100 := by
      rw [hdc]
      simp [actualSat, fraction, mget, md1, Finset.sum_range_succ, hy0]
      ring
    have hle : actualSat md1 a 0 ≤ 4099 / 100 := by
      rw [hs]
      have : ((divContrib md1 a 0 : ℤ) : ℚ) ≤ 4099 := by exact_mod_cast hdle
      linarith
    have hmem : actualSat md1 a 0 ∈ actualSats md1 a :=
      List.mem_map_of_mem _ (List.mem_range.mpr (by decide))
    exact le_trans (listMin_le 0 (actualSats md1 a) _ hmem) hle
  have key1 : a.y 1 0 = 0 → returnedWorst md1 a ≤ 4099 / 100 := by
    intro hy0
    have hdc : divContrib md1 a 1 = 40 * (a.x 1 0 : ℤ) + 40 * (a.x 1 1 : ℤ) := by
      simp [divContrib, mget, md1, Finset.sum_range_succ]
    have hnn : 0 ≤ divContrib md1 a 1 := by
      rw [hdc]
      positivity
    have hsdle : (divContrib md1 a 1).tdiv 100 ≤ 40 := by
      have h := (hsd 1 (by decide) (by decide)).2
      have hsh : scaledDiv md1 a 1 = (divContrib md1 a 1).tdiv 100 := by
        simp [scaledDiv, md1]
      rw [hsh] at h
      simpa [md1] using h
    have hdle : divContrib md1 a 1 ≤ 4099 := by
      rw [Int.tdiv_eq_ediv hnn (by norm_num)] at hsdle
      omega
    have hs : actualSat md1 a 1 = ((divContrib md1 a 1 : ℤ) : ℚ) / 100 := by
      rw [hdc]
      simp [actualSat, fraction, mget, md1, Finset.sum_range_succ, hy0]
      ring
    have hle : actualSat md1 a 1 ≤ 4099 / 100 := by
      rw [hs]
      have : ((divContrib md1 a 1 : ℤ) : ℚ) ≤ 4099 := by exact_mod_cast hdle
      linarith
    have hmem : actualSat md1 a 1 ∈ actualSats md1 a :=
      List.mem_map_of_mem _ (List.mem_range.mpr (by decide))
    exact le_trans (listMin_le 0 (actualSats md1 a) _ hmem) hle
  refine ⟨by decide, ⟨hb1, hw1⟩, ?_, by norm_num⟩
  have hy00 : a.y 0 0 ≤ 1 := hy 0 (by decide) 0 (by decide)
  have hy10 : a.y 1 0 ≤ 1 := hy 1 (by decide) 0 (by decide)
  have : a.y 0 0 = 0 ∨ a.y 1 0 = 0 := by omega
  rcases this with h | h
  · exact key0 h
  · exact key1 h

/-- Witness for C1 at the model-feasible assignment `aF1`. -/
theorem c1_witness :
    buildModel Iq1 Dq1 100 = some md1 ∧
    (AllocFeasible md1 b1 ∧ returnedWorst md1 b1 = 50) ∧
    returnedWorst md1 aF1 ≤ 4099 / 100 ∧ (4099 : ℚ) / 100 < 50 :=
  c1_maxmin_optimality_violated aF1 (by decide)

/-! ### C5: normalization validation in `calculate_fair_division` -/

/-- One indivisible item named Car. -/
def items5 : List Item := [⟨"Car", false⟩]

/-- A single agent A. -/
def people5 : List String := ["A"]

/-- A valuation table in which A's total is 50, not 100. -/
def vals5 : String → String → ℚ := fun _ _ => 50

/-- C5 counterexample: on the input `items5`/`people5`/`vals5`, whose
agent's valuations total 50 ≠ 100, `calculate_fair_division` does not
proceed: it rejects the input with the normalization `ValueError` of
line 42.  This refutes the claim that the engine proceeds without
enforcing the normalization invariant. -/
theorem c5_counterexample :
    calculate_fair_division items5 people5 vals5 none
      = Except.error (FDErr.normalization "A" 50) := by
  have hchk : checkTotals items5 vals5 people5
      = Except.error (FDErr.normalization "A" 50) := by
    have ht : totalFor items5 vals5 "A" = 50 := by
      norm_num [totalFor, items5, vals5]
    simp only [checkTotals, people5, ht]
    norm_num
  simp only [calculate_fair_division, hchk]

/-- The validation loop rejects as soon as some person in the list has a
total further than 0.01 from 100. -/
theorem checkTotals_rejects (items : List Item) (vals : String → String → ℚ)
    (people : List String)
    (h : ∃ per ∈ people, |totalFor items vals per - 100| > 1 / 100) :
    ∃ per t, checkTotals items vals people
        = Except.error (FDErr.normalization per t) ∧ |t - 100| > 1 / 100 := by
  induction people with
  | nil =>
    obtain ⟨per, hmem, _⟩ := h
    cases hmem
  | cons q rest ih =>
    by_cases hq : |totalFor items vals q - 100| > 1 / 100
    · refine ⟨q, totalFor items vals q, ?_, hq⟩
      simp only [checkTotals, if_pos hq]
    · obtain ⟨per, hmem, hbad⟩ := h
      have hper : per ∈ rest := by
        rcases List.mem_cons.mp hmem with rfl | hr
        · exact absurd hbad hq
        · exact hr
      obtain ⟨p2, t2, heq, hb2⟩ := ih ⟨per, hper, hbad⟩
      refine ⟨p2, t2, ?_, hb2⟩
      simp only [checkTotals, if_neg hq]
      exact heq

/-- C5 (amended): whenever some agent's valuations total differs from 100
by more than the 0.01 tolerance, `calculate_fair_division` rejects the
input with a normalization error instead of proceeding. -/
theorem c5_normalization_enforced (items : List Item) (people : List String)
    (vals : String → String → ℚ) (sol : Option Assign)
    (h : ∃ per ∈ people, |totalFor items vals per - 100| > 1 / 100) :
    ∃ per t, calculate_fair_division items people vals sol
        = Except.error (FDErr.normalization per t) ∧ |t - 100| > 1 / 100 := by
  obtain ⟨per, t, heq, hb⟩ := checkTotals_rejects items vals people h
  refine ⟨per, t, ?_, hb⟩
  simp only [calculate_fair_division, heq]

/-- Witness for C5 (amended) at the concrete input `items5`. -/
theorem c5_witness :
    ∃ per t, calculate_fair_division items5 people5 vals5 none
        = Except.error (FDErr.normalization per t) ∧ |t - 100| > 1 / 100 :=
  c5_normalization_enforced items5 people5 vals5 none
    ⟨"A", by norm_num [people5], by norm_num [totalFor, items5, vals5]⟩

/-! ### C7: empty input -/

/-- The all-zero valuation table (its values are irrelevant for the empty
input, which has no agents and no items). -/
def vals0 : String → String → ℚ := fun _ _ => 0

/-- C7 counterexample: on the empty input the engine does fail — but the
failure is the generic "No solution found" error, the same value that
surfaces solver infeasibility and timeout, not an input-classified error:
both matrices are empty, `solve_fair_division_mixed` returns `(None,
None)` at lines 119-121, and `calculate_fair_division` raises "No
solution found" at line 66. -/
theorem c7_counterexample :
    calculate_fair_division [] [] vals0 none = Except.error FDErr.noSolution ∧
    ¬ IsInputError FDErr.noSolution :=
  ⟨rfl, fun h => h⟩

/-- C7 (amended): for the empty input — no items and no agents — the
engine returns a failure, never a default or empty allocation, whatever
the valuation table and whatever the solver would have answered; the
failure is the generic no-solution error. -/
theorem c7_empty_input_fails (vals : String → String → ℚ) (sol : Option Assign) :
    calculate_fair_division [] [] vals sol = Except.error FDErr.noSolution := rfl

/-! ### C8: error propagation and the blanket handler -/

/-- The all-zero assignment (used as an arbitrary solver answer). -/
def aZero : Assign := ⟨fun _ _ => 0, fun _ _ => 0⟩

/-- C8 counterexample: the input `[[10], []]` (a ragged indivisible
matrix) makes the model-building phase raise an IndexError
(`indivisible_matrix[1][0]` at lines 188-189); the blanket handler of
lines 270-272 turns it into `(None, None)` — for any solver answer — which
is exactly the value returned on a well-formed input when the solver finds
no solution.  The internal exception is therefore discarded in a way
indistinguishable from the solver finding no solution, refuting the claim
that no error kind is silently swallowed. -/
theorem c8_counterexample :
    buildModel [[(10 : ℚ)], []] [] 100 = none ∧
    solve_fair_division_mixed [[(10 : ℚ)], []] [] 100 (some aZero) = none ∧
    buildModel [[(10 : ℚ)], [10]] [] 100
      = some ⟨2, 1, 0, 100, [[10], [10]], [], 10, [10, 10], 0⟩ ∧
    solve_fair_division_mixed [[(10 : ℚ)], [10]] [] 100 none = none := by
  refine ⟨by decide, ?_, by decide, ?_⟩ <;> decide

/-- C8 (amended): an exception anywhere in the model-building phase of
`solve_fair_division_mixed` is caught and yields the same `None` result as
the no-solution path (first two conjuncts), while failures raised by
`calculate_fair_division` itself (the normalization check) do propagate
synchronously to its caller (third conjunct). -/
theorem c8_solve_swallows_exceptions :
    (∀ (Iq Dq : List (List ℚ)) (scale : Nat) (sol : Option Assign),
      buildModel Iq Dq scale = none → solve_fair_division_mixed Iq Dq scale sol = none) ∧
    (∀ (Iq Dq : List (List ℚ)) (scale : Nat) (md : ModelData),
      buildModel Iq Dq scale = some md → solve_fair_division_mixed Iq Dq scale none = none) ∧
    (∀ (items : List Item) (people : List String) (vals : String → String → ℚ)
      (sol : Option Assign) (e : FDErr),
      checkTotals items vals people = Except.error e →
      calculate_fair_division items people vals sol = Except.error e) := by
  refine ⟨?_, ?_, ?_⟩
  · intro Iq Dq scale sol h
    simp only [solve_fair_division_mixed, h]
  · intro Iq Dq scale md h
    simp only [solve_fair_division_mixed, h]
  · intro items people vals sol e h
    simp only [calculate_fair_division, h]

/-- Witness for C8 (amended) at the ragged input, a built model, and a
failing validation. -/
theorem c8_witness :
    solve_fair_division_mixed [[(10 : ℚ)], []] [] 100 (some aZero) = none ∧
    solve_fair_division_mixed Iq2 Dq2 100 none = none ∧
    calculate_fair_division items5 people5 vals5 none
      = Except.error (FDErr.normalization "A" 50) := by
  refine ⟨c8_solve_swallows_exceptions.1 _ _ _ _ (by decide),
    c8_solve_swallows_exceptions.2.1 _ _ _ md2 (by decide),
    c8_solve_swallows_exceptions.2.2 _ _ _ _ _ ?_⟩
  have ht : totalFor items5 vals5 "A" = 50 := by
    norm_num [totalFor, items5, vals5]
  simp only [checkTotals, people5, ht]
  norm_num

/-! ### C9: two agents, two indivisible items, disjoint preferences -/

/-- Items of the scenario: Car and Cat, both indivisible. -/
def items9 : List Item := [⟨"Car", false⟩, ⟨"Cat", false⟩]

/-- Agents of the scenario. -/
def people9 : List String := ["Clare", "Dave"]

/-- Clare values the Car at 100 and the Cat at 0; Dave the reverse. -/
def vals9 : String → String → ℚ := fun item per =>
  if item = "Car" then (if per = "Clare" then 100 else 0)
  else if per = "Dave" then 100 else 0

/-- The model built from the scenario input. -/
def md9 : ModelData := ⟨2, 2, 0, 100, [[100, 0], [0, 100]], [], 100, [100, 100], 0⟩

/-- The unique optimal assignment: each agent receives their own item. -/
def a9 : Assign := ⟨fun i j => if i = j then 1 else 0, fun _ _ => 0⟩

/-- The expected engine result: Clare receives the Car, Dave the Cat,
worst satisfaction 100. -/
def r9 : FDResult := ⟨[("Clare", ⟨[("Car", 1)], []⟩), ("Dave", ⟨[("Cat", 1)], []⟩)], 100⟩

theorem objVal_le_max (md : ModelData) (b : Assign) : objVal md b ≤ md.maxPossible :=
  min_le_left _ _

/-- `a9` is optimal for `md9`: it is feasible with objective 100, and no
feasible assignment can exceed `max_possible = 100`. -/
theorem opt_md9_a9 : Optimal md9 a9 := by
  refine ⟨by decide, fun b _ => ?_⟩
  have h1 := objVal_le_max md9 b
  have h2 : objVal md9 a9 = 100 := by decide
  rw [h2]
  simpa [md9] using h1

/-- C9: for every assignment the solver can return with status OPTIMAL on
the Clare/Dave input, the engine allocates the Car to Clare, the Cat to
Dave, and reports worst satisfaction 100. -/
theorem c9_disjoint_preferences (a : Assign) (hopt : Optimal md9 a) :
    buildModel (buildMatrix (items9.filter (fun it => !it.is_divisible)) vals9 people9)
        (buildMatrix (items9.filter (fun it => it.is_divisible)) vals9 people9) 100
      = some md9 ∧
    calculate_fair_division items9 people9 vals9 (some a) = Except.ok r9 := by
  obtain ⟨hf, hmax⟩ := hopt
  obtain ⟨hy, hx, hexcl, hfull, hsd, htot⟩ := hf
  have ha9 : Feasible md9 a9 := by decide
  have hobj9 : objVal md9 a9 = 100 := by decide
  have h100 : (100 : ℤ) ≤ objVal md9 a := by
    have := hmax a9 ha9
    omega
  have hov : objVal md9 a = min 100 (min (tot md9 a 0) (tot md9 a 1)) := rfl
  have ht0 : (100 : ℤ) ≤ tot md9 a 0 := by
    rw [hov] at h100
    omega
  have ht1 : (100 : ℤ) ≤ tot md9 a 1 := by
    rw [hov] at h100
    omega
  have he0 : tot md9 a 0 = 100 * (a.y 0 0 : ℤ) := by
    simp [tot, indivSum, scaledDiv, mget, md9, Finset.sum_range_succ]
  have he1 : tot md9 a 1 = 100 * (a.y 1 1 : ℤ) := by
    simp [tot, indivSum, scaledDiv, mget, md9, Finset.sum_range_succ]
  have hyb00 : a.y 0 0 ≤ 1 := hy 0 (by decide) 0 (by decide)
  have hyb11 : a.y 1 1 ≤ 1 := hy 1 (by decide) 1 (by decide)
  have hy00 : a.y 0 0 = 1 := by
    rw [he0] at ht0
    omega
  have hy11 : a.y 1 1 = 1 := by
    rw [he1] at ht1
    omega
  have hex0 : (a.y 0 0 : ℤ) + (a.y 1 0 : ℤ) = 1 := by
    have := hexcl 0 (by decide)
    simpa [md9, Finset.sum_range_succ] using this
  have hex1 : (a.y 0 1 : ℤ) + (a.y 1 1 : ℤ) = 1 := by
    have := hexcl 1 (by decide)
    simpa [md9, Finset.sum_range_succ] using this
  have hy10 : a.y 1 0 = 0 := by omega
  have hy01 : a.y 0 1 = 0 := by omega
  have hchk : checkTotals items9 vals9 people9 = Except.ok () := by
    simp [checkTotals, totalFor, items9, people9, vals9, String.reduceEq]
    norm_num
  have hb : buildModel
      (buildMatrix (items9.filter (fun it => !it.is_divisible)) vals9 people9)
      (buildMatrix (items9.filter (fun it => it.is_divisible)) vals9 people9) 100
      = some md9 := by decide
  have hsolve : solve_fair_division_mixed
      (buildMatrix (items9.filter (fun it => !it.is_divisible)) vals9 people9)
      (buildMatrix (items9.filter (fun it => it.is_divisible)) vals9 people9) 100 (some a)
      = some (extractAlloc md9 a, returnedWorst md9 a) := by
    simp only [solve_fair_division_mixed, hb]
  have hE : extractAlloc md9 a
      = [⟨some [a.y 0 0, a.y 0 1], none⟩, ⟨some [a.y 1 0, a.y 1 1], none⟩] := rfl
  have hW : returnedWorst md9 a = 100 := by
    have h1 : actualSats md9 a = [actualSat md9 a 0, actualSat md9 a 1] := rfl
    have h2 : actualSat md9 a 0 = 100 := by
      simp [actualSat, fraction, mget, md9, Finset.sum_range_succ, hy00, hy01]
    have h3 : actualSat md9 a 1 = 100 := by
      simp [actualSat, fraction, mget, md9, Finset.sum_range_succ, hy10, hy11]
    rw [returnedWorst, h1, h2, h3, listMin_pair, min_self]
  refine ⟨hb, ?_⟩
  rw [hE, hy00, hy01, hy10, hy11] at hsolve
  simp only [calculate_fair_division, hchk, hsolve, hW]
  rfl

/-- Witness for C9 at the concrete optimal assignment `a9`. -/
theorem c9_witness :
    buildModel (buildMatrix (items9.filter (fun it => !it.is_divisible)) vals9 people9)
        (buildMatrix (items9.filter (fun it => it.is_divisible)) vals9 people9) 100
      = some md9 ∧
    calculate_fair_division items9 people9 vals9 (some a9) = Except.ok r9 :=
  c9_disjoint_preferences a9 opt_md9_a9

/-! ### C6: shape of the result of `calculate_fair_division` -/

/-- Membership in a Python `enumerate`: the pairs are exactly the indexed
elements of the list, shifted by the start index. -/
theorem pyEnum_mem {α : Type} (l : List α) : ∀ (k : Nat) (pr : Nat × α),
    pr ∈ pyEnum k l ↔ ∃ j, pr.1 = k + j ∧ l.get? j = some pr.2 := by
  induction l with
  | nil =>
    intro k pr
    simp [pyEnum]
  | cons a as ih =>
    intro k pr
    constructor
    · intro h
      rcases List.mem_cons.mp h with rfl | h2
      · exact ⟨0, by simp, rfl⟩
      · obtain ⟨j, hj, hg⟩ := (ih (k + 1) pr).mp h2
        exact ⟨j + 1, by omega, by simpa using hg⟩
    · rintro ⟨j, hj, hg⟩
      cases j with
      | zero =>
        have hpr : pr = (k, a) := by
          obtain ⟨p1, p2⟩ := pr
          simp only [List.get?] at hg
          simp only at hj
          have h2 : a = p2 := Option.some.inj hg
          simp [hj, h2]
        rw [hpr]
        exact List.mem_cons_self _ _
      | succ j =>
        refine List.mem_cons_of_mem _ ((ih (k + 1) pr).mpr ⟨j, by omega, ?_⟩)
        simpa using hg

/-- The `i`-th entry of the allocation dictionary, for a person index in
range. -/
theorem extractAlloc_getD (md : ModelData) (a : Assign) (i : Nat) (h : i < md.people) :
    (extractAlloc md a).getD i ⟨none, none⟩ =
      ⟨if 0 < md.nIndiv then some ((List.range md.nIndiv).map (fun j => a.y i j)) else none,
       if 0 < md.nDiv then some ((List.range md.nDiv).map (fun j => fraction md a i j)) else none⟩ := by
  unfold extractAlloc
  rw [List.getD_eq_get?, List.get?_map, List.get?_range h]
  rfl

/-- The named `divisible` dictionary built for person `i` contains exactly
the divisible items of which the person receives a strictly positive
fraction, mapped to that fraction. -/
theorem calcAgentAlloc_div_mem (md : ModelData) (a : Assign) (i : Nat)
    (h : i < md.people) (nI nD : List String) (nm : String) (f : ℚ) :
    ((nm, f) ∈ (calcAgentAlloc nI nD ((extractAlloc md a).getD i ⟨none, none⟩)).div
      ↔ ∃ j < md.nDiv, 0 < fraction md a i j ∧ f = fraction md a i j ∧ nm = nD.getD j "") := by
  rw [extractAlloc_getD md a i h]
  by_cases hm : 0 < md.nDiv
  · simp only [calcAgentAlloc, if_pos hm, List.mem_filterMap]
    constructor
    · rintro ⟨pr, hpr, hg⟩
      obtain ⟨j, hj1, hj2⟩ := (pyEnum_mem _ 0 pr).mp hpr
      have hjm : j < md.nDiv := by
        by_contra hge
        have hnone : ((List.range md.nDiv).map (fun j => fraction md a i j)).get? j = none := by
          rw [List.get?_eq_none]
          simp only [List.length_map, List.length_range]
          omega
        rw [hnone] at hj2
        cases hj2
      have hsome : ((List.range md.nDiv).map (fun j => fraction md a i j)).get? j
          = some (fraction md a i j) := by
        rw [List.get?_map, List.get?_range hjm]
        rfl
      rw [hsome] at hj2
      have hpr2 : pr.2 = fraction md a i j := (Option.some.inj hj2).symm
      by_cases hpos : 0 < pr.2
      · rw [if_pos hpos] at hg
        obtain ⟨hnm, hf⟩ := Prod.mk.inj (Option.some.inj hg)
        refine ⟨j, hjm, by rw [← hpr2]; exact hpos, ?_, ?_⟩
        · rw [← hf, hpr2]
        · rw [← hnm, hj1]
          norm_num
      · rw [if_neg hpos] at hg
        cases hg
    · rintro ⟨j, hjm, hpos, hf, hnm⟩
      refine ⟨(j, fraction md a i j), ?_, ?_⟩
      · refine (pyEnum_mem _ 0 _).mpr ⟨j, by simp, ?_⟩
        rw [List.get?_map, List.get?_range hjm]
        rfl
      · simp only [if_pos hpos]
        rw [hf, hnm]
  · have hm0 : md.nDiv = 0 := by omega
    simp [calcAgentAlloc, hm0]

/-- The named `indivisible` dictionary built for person `i` contains
exactly the indivisible items whose indicator is 1, mapped to 1. -/
theorem calcAgentAlloc_indiv_mem (md : ModelData) (a : Assign) (i : Nat)
    (h : i < md.people) (nI nD : List String) (nm : String) (v : Nat) :
    ((nm, v) ∈ (calcAgentAlloc nI nD ((extractAlloc md a).getD i ⟨none, none⟩)).indiv
      ↔ ∃ j < md.nIndiv, a.y i j = 1 ∧ v = 1 ∧ nm = nI.getD j "") := by
  rw [extractAlloc_getD md a i h]
  by_cases hm : 0 < md.nIndiv
  · simp only [calcAgentAlloc, if_pos hm, List.mem_filterMap]
    constructor
    · rintro ⟨pr, hpr, hg⟩
      obtain ⟨j, hj1, hj2⟩ := (pyEnum_mem _ 0 pr).mp hpr
      have hjm : j < md.nIndiv := by
        by_contra hge
        have hnone : ((List.range md.nIndiv).map (fun j => a.y i j)).get? j = none := by
          rw [List.get?_eq_none]
          simp only [List.length_map, List.length_range]
          omega
        rw [hnone] at hj2
        cases hj2
      have hsome : ((List.range md.nIndiv).map (fun j => a.y i j)).get? j
          = some (a.y i j) := by
        rw [List.get?_map, List.get?_range hjm]
        rfl
      rw [hsome] at hj2
      have hpr2 : pr.2 = a.y i j := (Option.some.inj hj2).symm
      by_cases h1 : pr.2 = 1
      · rw [if_pos h1] at hg
        obtain ⟨hnm, hv⟩ := Prod.mk.inj (Option.some.inj hg)
        refine ⟨j, hjm, by rw [← hpr2]; exact h1, hv.symm, ?_⟩
        · rw [← hnm, hj1]
          norm_num
      · rw [if_neg h1] at hg
        cases hg
    · rintro ⟨j, hjm, hy1, hv, hnm⟩
      refine ⟨(j, a.y i j), ?_, ?_⟩
      · refine (pyEnum_mem _ 0 _).mpr ⟨j, by simp, ?_⟩
        rw [List.get?_map, List.get?_range hjm]
        rfl
      · rw [hv, hnm]
        simp [hy1]
  · have hm0 : md.nIndiv = 0 := by omega
    simp [calcAgentAlloc, hm0]

/-- Items of the C6 instance: an indivisible Car and a divisible Cash. -/
def items6 : List Item := [⟨"Car", false⟩, ⟨"Cash", true⟩]

/-- Agents of the C6 instance. -/
def people6 : List String := ["A", "B"]

/-- A values only the Car (100); B values only the Cash (100). -/
def vals6 : String → String → ℚ := fun item per =>
  if item = "Car" then (if per = "A" then 100 else 0)
  else if per = "B" then 100 else 0

/-- The model built from the C6 instance. -/
def md6 : ModelData := ⟨2, 1, 1, 100, [[100], [0]], [[0], [100]], 100, [200, 100], 100⟩

/-- The unique optimal assignment of the C6 instance: A takes the Car, B
takes all of the Cash; A's Cash fraction is 0. -/
def a6 : Assign :=
  ⟨fun i j => if i = 0 ∧ j = 0 then 1 else 0,
   fun i j => if i = 1 ∧ j = 0 then 100 else 0⟩

/-- The engine's result on the C6 instance: A's `divisible` dictionary is
empty — the divisible item Cash, of which A receives fraction 0, has no
entry. -/
def r6 : FDResult := ⟨[("A", ⟨[("Car", 1)], []⟩), ("B", ⟨[], [("Cash", 1)]⟩)], 100⟩

/-- `a6` is optimal for `md6`. -/
theorem opt_md6_a6 : Optimal md6 a6 := by
  refine ⟨by decide, fun b _ => ?_⟩
  have h1 := objVal_le_max md6 b
  have h2 : objVal md6 a6 = 100 := by decide
  rw [h2]
  simpa [md6] using h1

/-- Every optimal assignment of `md6` gives A the Car and B all the Cash. -/
theorem md6_forced (a : Assign) (hopt : Optimal md6 a) :
    a.y 0 0 = 1 ∧ a.y 1 0 = 0 ∧ a.x 0 0 = 0 ∧ a.x 1 0 = 100 := by
  obtain ⟨hf, hmax⟩ := hopt
  obtain ⟨hy, hx, hexcl, hfull, hsd, htot⟩ := hf
  have ha6 : Feasible md6 a6 := by decide
  have hobj6 : objVal md6 a6 = 100 := by decide
  have h100 : (100 : ℤ) ≤ objVal md6 a := by
    have := hmax a6 ha6
    omega
  have hov : objVal md6 a = min 100 (min (tot md6 a 0) (tot md6 a 1)) := rfl
  have ht0 : (100 : ℤ) ≤ tot md6 a 0 := by
    rw [hov] at h100
    omega
  have ht1 : (100 : ℤ) ≤ tot md6 a 1 := by
    rw [hov] at h100
    omega
  have he0 : tot md6 a 0 = 100 * (a.y 0 0 : ℤ) := by
    simp [tot, indivSum, scaledDiv, divContrib, mget, md6, Finset.sum_range_succ,
      Int.zero_tdiv]
  have he1 : tot md6 a 1 = (a.x 1 0 : ℤ) := by
    have hdc : divContrib md6 a 1 = 100 * (a.x 1 0 : ℤ) := by
      simp [divContrib, mget, md6, Finset.sum_range_succ]
    have hsh : tot md6 a 1 = (divContrib md6 a 1).tdiv 100 := by
      simp [tot, indivSum, scaledDiv, mget, md6, Finset.sum_range_succ]
    rw [hsh, hdc, Int.mul_tdiv_cancel_left _ (by norm_num)]
  have hyb00 : a.y 0 0 ≤ 1 := hy 0 (by decide) 0 (by decide)
  have hy00 : a.y 0 0 = 1 := by
    rw [he0] at ht0
    omega
  have hxb10 : a.x 1 0 ≤ 100 := hx 1 (by decide) 0 (by decide)
  have hx10 : a.x 1 0 = 100 := by
    rw [he1] at ht1
    omega
  have hfull0 : (a.x 0 0 : ℤ) + (a.x 1 0 : ℤ) = 100 := by
    have := hfull 0 (by decide)
    simpa [md6, Finset.sum_range_succ] using this
  have hx00 : a.x 0 0 = 0 := by omega
  have hex0 : (a.y 0 0 : ℤ) + (a.y 1 0 : ℤ) = 1 := by
    have := hexcl 0 (by decide)
    simpa [md6, Finset.sum_range_succ] using this
  have hy10 : a.y 1 0 = 0 := by omega
  exact ⟨hy00, hy10, hx00, hx10⟩

/-- With the forced variable values, the engine's result on the C6
instance is `r6`. -/
theorem md6_calc (a : Assign) (h1 : a.y 0 0 = 1) (h2 : a.y 1 0 = 0)
    (h3 : a.x 0 0 = 0) (h4 : a.x 1 0 = 100) :
    calculate_fair_division items6 people6 vals6 (some a) = Except.ok r6 := by
  have hchk : checkTotals items6 vals6 people6 = Except.ok () := by
    simp [checkTotals, totalFor, items6, people6, vals6, String.reduceEq]
    norm_num
  have hb : buildModel
      (buildMatrix (items6.filter (fun it => !it.is_divisible)) vals6 people6)
      (buildMatrix (items6.filter (fun it => it.is_divisible)) vals6 people6) 100
      = some md6 := by decide
  have hsolve : solve_fair_division_mixed
      (buildMatrix (items6.filter (fun it => !it.is_divisible)) vals6 people6)
      (buildMatrix (items6.filter (fun it => it.is_divisible)) vals6 people6) 100 (some a)
      = some (extractAlloc md6 a, returnedWorst md6 a) := by
    simp only [solve_fair_division_mixed, hb]
  have hfr0 : fraction md6 a 0 0 = 0 := by
    simp [fraction, md6, h3]
  have hfr1 : fraction md6 a 1 0 = 1 := by
    norm_num [fraction, md6, h4]
  have hE : extractAlloc md6 a
      = [⟨some [a.y 0 0], some [fraction md6 a 0 0]⟩,
         ⟨some [a.y 1 0], some [fraction md6 a 1 0]⟩] := rfl
  have hW : returnedWorst md6 a = 100 := by
    have hl : actualSats md6 a = [actualSat md6 a 0, actualSat md6 a 1] := rfl
    have hs0 : actualSat md6 a 0 = 100 := by
      norm_num [actualSat, fraction, mget, md6, Finset.sum_range_succ, h1, h3]
    have hs1 : actualSat md6 a 1 = 100 := by
      norm_num [actualSat, fraction, mget, md6, Finset.sum_range_succ, h2, h4]
    rw [returnedWorst, hl, hs0, hs1, listMin_pair, min_self]
  rw [hE, h1, h2, hfr0, hfr1] at hsolve
  simp only [calculate_fair_division, hchk, hsolve, hW]
  rfl

/-- C6 (amended): on every successful run, each agent's `indivisible`
field is the dictionary mapping exactly the indivisible item names whose
indicator is 1 to the value 1, and the `divisible` field maps exactly the
divisible item names of which the agent receives a strictly positive
fraction to that fraction — items with fraction 0 are omitted (first two
conjuncts); on the C6 scenario every optimal solver answer produces the
result `r6` (third conjunct). -/
theorem c6_output_shape :
    (∀ (md : ModelData) (a : Assign) (i : Nat), i < md.people →
      ∀ (nI nD : List String) (nm : String) (v : Nat),
        ((nm, v) ∈ (calcAgentAlloc nI nD ((extractAlloc md a).getD i ⟨none, none⟩)).indiv
          ↔ ∃ j < md.nIndiv, a.y i j = 1 ∧ v = 1 ∧ nm = nI.getD j "")) ∧
    (∀ (md : ModelData) (a : Assign) (i : Nat), i < md.people →
      ∀ (nI nD : List String) (nm : String) (f : ℚ),
        ((nm, f) ∈ (calcAgentAlloc nI nD ((extractAlloc md a).getD i ⟨none, none⟩)).div
          ↔ ∃ j < md.nDiv, 0 < fraction md a i j ∧ f = fraction md a i j ∧ nm = nD.getD j "")) ∧
    (∀ a : Assign, Optimal md6 a →
      calculate_fair_division items6 people6 vals6 (some a) = Except.ok r6) := by
  refine ⟨?_, ?_, ?_⟩
  · intro md a i h nI nD nm v
    exact calcAgentAlloc_indiv_mem md a i h nI nD nm v
  · intro md a i h nI nD nm f
    exact calcAgentAlloc_div_mem md a i h nI nD nm f
  · intro a hopt
    obtain ⟨h1, h2, h3, h4⟩ := md6_forced a hopt
    exact md6_calc a h1 h2 h3 h4

/-- C6 counterexample: a successful run of the engine (the C6 scenario
with its optimal solver answer) in which agent A's `divisible` field has
no entry for the divisible item Cash — A receives fraction 0 of it — so
the field does not map *each* divisible item name to a fraction. -/
theorem c6_counterexample :
    Optimal md6 a6 ∧
    calculate_fair_division items6 people6 vals6 (some a6) = Except.ok r6 ∧
    "Cash" ∈ (items6.filter (fun it => it.is_divisible)).map (fun it => it.name) ∧
    (r6.allocations.getD 0 ("", ⟨[], []⟩)).1 = "A" ∧
    ∀ f : ℚ, ("Cash", f) ∉ ((r6.allocations.getD 0 ("", ⟨[], []⟩)).2).div := by
  refine ⟨opt_md6_a6, md6_calc a6 rfl rfl rfl rfl, by decide, by decide, ?_⟩
  intro f hf
  simp [r6] at hf

/-- Witness for C6 (amended): its universally quantified parts applied at
the concrete instance `md6`/`a6`, plus the scenario conclusion at `a6`. -/
theorem c6_witness :
    (("Car", 1) ∈ (calcAgentAlloc ["Car"] ["Cash"]
        ((extractAlloc md6 a6).getD 0 ⟨none, none⟩)).indiv
      ↔ ∃ j < md6.nIndiv, a6.y 0 j = 1 ∧ 1 = 1 ∧ "Car" = ["Car"].getD j "") ∧
    (("Cash", (1 : ℚ)) ∈ (calcAgentAlloc ["Car"] ["Cash"]
        ((extractAlloc md6 a6).getD 0 ⟨none, none⟩)).div
      ↔ ∃ j < md6.nDiv, 0 < fraction md6 a6 0 j ∧ (1 : ℚ) = fraction md6 a6 0 j
          ∧ "Cash" = ["Cash"].getD j "") ∧
    calculate_fair_division items6 people6 vals6 (some a6) = Except.ok r6 :=
  ⟨c6_output_shape.1 md6 a6 0 (by decide) ["Car"] ["Cash"] "Car" 1,
   c6_output_shape.2.1 md6 a6 0 (by decide) ["Car"] ["Cash"] "Cash" 1,
   c6_output_shape.2.2 a6 opt_md6_a6⟩

/-! ### C10: truncation of valuations -/

theorem pyint_intCast (n : ℤ) : pyint ((n : ℤ) : ℚ) = n := by
  simp [pyint, Rat.num_intCast, Rat.den_intCast, Int.tdiv_one]

theorem truncMat_truncMatQ (M : List (List ℚ)) : truncMat (truncMatQ M) = truncMat M := by
  simp only [truncMat, truncMatQ, List.map_map]
  apply List.map_congr_left
  intro r _
  simp only [Function.comp, List.map_map]
  apply List.map_congr_left
  intro q _
  exact pyint_intCast (pyint q)

theorem truncMatQ_isEmpty (M : List (List ℚ)) : (truncMatQ M).isEmpty = M.isEmpty := by
  cases M <;> simp [truncMatQ]

/-- `buildModel` is invariant under replacing every valuation by its
integer part: the code truncates first anyway. -/
theorem buildModel_trunc (Iq Dq : List (List ℚ)) (scale : Nat) :
    buildModel (truncMatQ Iq) (truncMatQ Dq) scale = buildModel Iq Dq scale := by
  unfold buildModel
  rw [truncMatQ_isEmpty, truncMatQ_isEmpty, truncMat_truncMatQ, truncMat_truncMatQ]

/-- The model built from the single-person input whose only valuation is
99.5: the valuation is truncated to 99. -/
def md10 : ModelData := ⟨1, 1, 0, 100, [[99]], [], 99, [99], 0⟩

/-- The only feasible assignment of `md10` on its single indicator. -/
def a10 : Assign := ⟨fun _ _ => 1, fun _ _ => 0⟩

/-- C10: the whole solver pipeline depends only on the integer parts of
the supplied valuations (first conjunct: replacing every valuation by its
`int()` truncation changes nothing); and on the input whose only
valuation is 99.5, every solver answer leads to a reported worst
satisfaction of 99, while the same assignment evaluated over the original
real-valued valuations gives 99.5 (remaining conjuncts). -/
theorem c10_truncation :
    (∀ (Iq Dq : List (List ℚ)) (scale : Nat) (sol : Option Assign),
      solve_fair_division_mixed Iq Dq scale sol
        = solve_fair_division_mixed (truncMatQ Iq) (truncMatQ Dq) scale sol) ∧
    buildModel [[(199 : ℚ) / 2]] [] 100 = some md10 ∧
    (∀ a : Assign, Feasible md10 a →
      returnedWorst md10 a = 99 ∧
      actualSatOrig [[(199 : ℚ) / 2]] [] 1 0 100 a 0 = 199 / 2 ∧
      (99 : ℚ) ≠ 199 / 2) := by
  refine ⟨?_, ?_, ?_⟩
  · intro Iq Dq scale sol
    unfold solve_fair_division_mixed
    rw [buildModel_trunc]
  · have hq : pyint ((199 : ℚ) / 2) = 99 := by
      have h199 : ((199 : ℚ) / 2).num = 199 := by norm_num
      have h2 : (((199 : ℚ) / 2).den : ℤ) = 2 := by norm_num
      rw [pyint, h199, h2]
      decide
    have ht : truncMat [[(199 : ℚ) / 2]] = [[99]] := by simp [truncMat, hq]
    unfold buildModel
    rw [if_neg (by simp), ht]
    decide
  · intro a hf
    obtain ⟨hy, hx, hexcl, hfull, hsd, htot⟩ := hf
    have hex : (a.y 0 0 : ℤ) = 1 := by
      have := hexcl 0 (by decide)
      simpa [md10, Finset.sum_range_succ] using this
    have hy00 : a.y 0 0 = 1 := by exact_mod_cast hex
    refine ⟨?_, ?_, by norm_num⟩
    · have hl : actualSats md10 a = [actualSat md10 a 0] := rfl
      have hs : actualSat md10 a 0 = 99 := by
        norm_num [actualSat, fraction, mget, md10, Finset.sum_range_succ, hy00]
      rw [returnedWorst, hl, hs]
      exact listMin_single 0 99
    · norm_num [actualSatOrig, mgetQ, hy00]

/-- Witness for C10's hypothesis-bearing part at the assignment `a10`. -/
theorem c10_witness :
    Feasible md10 a10 ∧
    (returnedWorst md10 a10 = 99 ∧
      actualSatOrig [[(199 : ℚ) / 2]] [] 1 0 100 a10 0 = 199 / 2 ∧
      (99 : ℚ) ≠ 199 / 2) :=
  ⟨by decide, c10_truncation.2.2 a10 (by decide)⟩

end FairDivision
